import Mathlib

/-!
Verification of the QQuaternion rotation-algebra module
(src/gui/math3d/qquaternion.cpp) against its natural-language
specification.  The module's float arithmetic is embedded over the real
numbers; every function is translated branch-for-branch from the source.
-/

open scoped Classical

noncomputable section

namespace QtMath

/-- Modelled from the spec: the shared fuzzy-compare helper (declared in
the toolkit's global header, outside the reviewed slice).  The spec
describes a scale-relative comparison for non-zero magnitudes: the
float overload compares the scaled absolute difference against the
smaller magnitude (factor 100000). -/
def qFuzzyCompare (p1 p2 : ℝ) : Prop :=
  |p1 - p2| * 100000 ≤ min |p1| |p2|

/-- Modelled from the spec: the shared near-zero test (declared in the
toolkit's global header, outside the reviewed slice).  The spec
describes a small absolute epsilon for near-zero values; the float
overload tests the absolute value against 0.00001. -/
def qFuzzyIsNull (f : ℝ) : Prop :=
  |f| ≤ 0.00001

/-- Degrees-to-radians conversion used throughout the source
(qDegreesToRadians from the math header): multiply by pi/180. -/
def qDegreesToRadians (degrees : ℝ) : ℝ :=
  degrees * (Real.pi / 180)

/-- Radians-to-degrees conversion used throughout the source
(qRadiansToDegrees from the math header): multiply by 180/pi. -/
def qRadiansToDegrees (radians : ℝ) : ℝ :=
  radians * (180 / Real.pi)

/-- The real embedding of std::copysign as used by getEulerAngles:
the magnitude of the first argument carrying the sign of the second. -/
def copysign (x s : ℝ) : ℝ :=
  if s < 0 then -|x| else |x|

/-- The real embedding of std::atan2, the two-argument arctangent,
following the C standard case split. -/
def atan2 (y x : ℝ) : ℝ :=
  if 0 < x then Real.arctan (y / x)
  else if x < 0 then
    (if 0 ≤ y then Real.arctan (y / x) + Real.pi
     else Real.arctan (y / x) - Real.pi)
  else
    (if 0 < y then Real.pi / 2
     else if y < 0 then -(Real.pi / 2)
     else 0)

/-- The quaternion value type: scalar part `wp` and vector part
`(xp, yp, zp)`, as stored by the source class (constructor order:
scalar, x, y, z). -/
structure QQuaternion where
  wp : ℝ
  xp : ℝ
  yp : ℝ
  zp : ℝ

attribute [ext] QQuaternion

/-- The 3D vector type used by the module (components x, y, z). -/
structure QVector3D where
  x : ℝ
  y : ℝ
  z : ℝ

attribute [ext] QVector3D

/-- A dense 3x3 rotation matrix with row-column indexed entries,
mirroring QMatrix3x3 access `rot3x3(row, col)`. -/
structure QMatrix3x3 where
  m00 : ℝ
  m01 : ℝ
  m02 : ℝ
  m10 : ℝ
  m11 : ℝ
  m12 : ℝ
  m20 : ℝ
  m21 : ℝ
  m22 : ℝ

namespace QQuaternion

/-- Modelled from the spec: `isNull()` (inline in the class header,
outside the reviewed slice) is true iff all four components are exactly
zero. -/
def isNull (q : QQuaternion) : Prop :=
  q.xp = 0 ∧ q.yp = 0 ∧ q.zp = 0 ∧ q.wp = 0

/-- Modelled from the spec: componentwise addition (inline operator+ in
the class header, outside the reviewed slice). -/
def add (q1 q2 : QQuaternion) : QQuaternion :=
  ⟨q1.wp + q2.wp, q1.xp + q2.xp, q1.yp + q2.yp, q1.zp + q2.zp⟩

/-- Modelled from the spec: multiplication of every component by a
scalar factor (inline operator* in the class header, outside the
reviewed slice). -/
def smul (q : QQuaternion) (factor : ℝ) : QQuaternion :=
  ⟨q.wp * factor, q.xp * factor, q.yp * factor, q.zp * factor⟩

/-- Modelled from the spec: unary negation of all components (inline
operator- in the class header, outside the reviewed slice). -/
def neg (q : QQuaternion) : QQuaternion :=
  ⟨-q.wp, -q.xp, -q.yp, -q.zp⟩

/-- Modelled from the spec: the dot product of two quaternions, the sum
of the componentwise products (inline dotProduct in the class header,
outside the reviewed slice). -/
def dotProduct (q1 q2 : QQuaternion) : ℝ :=
  q1.xp * q2.xp + q1.yp * q2.yp + q1.zp * q2.zp + q1.wp * q2.wp

/-- `length()`: the Euclidean norm of all four components, computed in
the source with the stable hypotenuse helper qHypot; over the reals it
is the square root of the sum of squares. -/
def length (q : QQuaternion) : ℝ :=
  Real.sqrt (q.xp * q.xp + q.yp * q.yp + q.zp * q.zp + q.wp * q.wp)

/-- `lengthSquared()`: the naive sum of squares of the components. -/
def lengthSquared (q : QQuaternion) : ℝ :=
  q.xp * q.xp + q.yp * q.yp + q.zp * q.zp + q.wp * q.wp

/-- `normalized()`: returns the quaternion unchanged when the length is
fuzzily 1, the exact null quaternion when the length is fuzzily zero,
and otherwise every component divided by the length. -/
def normalized (q : QQuaternion) : QQuaternion :=
  if qFuzzyCompare q.length 1 then q
  else if qFuzzyIsNull q.length then ⟨0, 0, 0, 0⟩
  else ⟨q.wp / q.length, q.xp / q.length, q.yp / q.length, q.zp / q.length⟩

end QQuaternion

namespace QVector3D

/-- Modelled from the spec: the vector dot product (defined in the
vector header, outside the reviewed slice), the sum of componentwise
products. -/
def dotProduct (v1 v2 : QVector3D) : ℝ :=
  v1.x * v2.x + v1.y * v2.y + v1.z * v2.z

/-- Modelled from the spec: the standard 3D cross product (defined in
the vector header, outside the reviewed slice). -/
def crossProduct (v1 v2 : QVector3D) : QVector3D :=
  ⟨v1.y * v2.z - v1.z * v2.y, v1.z * v2.x - v1.x * v2.z,
    v1.x * v2.y - v1.y * v2.x⟩

/-- The squared Euclidean norm of a 3D vector. -/
def lengthSquared (v : QVector3D) : ℝ :=
  v.x * v.x + v.y * v.y + v.z * v.z

/-- The Euclidean norm of a 3D vector. -/
def length (v : QVector3D) : ℝ :=
  Real.sqrt (v.x * v.x + v.y * v.y + v.z * v.z)

/-- Modelled from the spec: QVector3D::normalized (outside the reviewed
slice).  The spec says direction inputs are normalized with the
module-wide fuzzy guards: unchanged near unit length, the zero vector
near zero length, otherwise divided by the length. -/
def normalized (v : QVector3D) : QVector3D :=
  if qFuzzyIsNull (v.length - 1) then v
  else if ¬ qFuzzyIsNull v.length then ⟨v.x / v.length, v.y / v.length, v.z / v.length⟩
  else ⟨0, 0, 0⟩

/-- Modelled from the spec: the in-place QVector3D::normalize (outside
the reviewed slice), a no-op under the same two fuzzy guards and a
componentwise division by the length otherwise. -/
def normalize (v : QVector3D) : QVector3D :=
  if qFuzzyIsNull (v.length - 1) ∨ qFuzzyIsNull v.length then v
  else ⟨v.x / v.length, v.y / v.length, v.z / v.length⟩

end QVector3D

namespace QQuaternion

/-- `fromAxisAndAngle(x, y, z, angle)`: normalizes the axis unless its
length is already fuzzily 1 or fuzzily 0, then builds the half-angle
quaternion (cos a, axis * sin a) and normalizes the result. -/
def fromAxisAndAngle (x y z angle : ℝ) : QQuaternion :=
  let length := Real.sqrt (x * x + y * y + z * z)
  let xn := if ¬ qFuzzyCompare length 1 ∧ ¬ qFuzzyIsNull length then x / length else x
  let yn := if ¬ qFuzzyCompare length 1 ∧ ¬ qFuzzyIsNull length then y / length else y
  let zn := if ¬ qFuzzyCompare length 1 ∧ ¬ qFuzzyIsNull length then z / length else z
  let a := qDegreesToRadians (angle / 2)
  normalized ⟨Real.cos a, xn * Real.sin a, yn * Real.sin a, zn * Real.sin a⟩

/-- `getAxisAndAngle()`: returns ((x, y, z), angle in degrees).  When
the vector part is fuzzily null it returns the zero-axis and angle-0
sentinel; otherwise the axis is the vector part, divided by its length
unless that length is fuzzily 1, and the angle is 2*acos(scalar)
converted to degrees. -/
def getAxisAndAngle (q : QQuaternion) : (ℝ × ℝ × ℝ) × ℝ :=
  let length := Real.sqrt (q.xp * q.xp + q.yp * q.yp + q.zp * q.zp)
  if ¬ qFuzzyIsNull length then
    ((if qFuzzyCompare length 1 then (q.xp, q.yp, q.zp)
      else (q.xp / length, q.yp / length, q.zp / length)),
     qRadiansToDegrees (2 * Real.arccos q.wp))
  else ((0, 0, 0), 0)

/-- `fromEulerAngles(pitch, yaw, roll)`: the closed-form quaternion for
a rotation of roll degrees around z, pitch degrees around x and yaw
degrees around y, in that order, via half-angle products. -/
def fromEulerAngles (pitch yaw roll : ℝ) : QQuaternion :=
  let p := qDegreesToRadians pitch * 0.5
  let ya := qDegreesToRadians yaw * 0.5
  let r := qDegreesToRadians roll * 0.5
  let c1 := Real.cos ya
  let s1 := Real.sin ya
  let c2 := Real.cos r
  let s2 := Real.sin r
  let c3 := Real.cos p
  let s3 := Real.sin p
  let c1c2 := c1 * c2
  let s1s2 := s1 * s2
  ⟨c1c2 * c3 + s1s2 * s3, c1c2 * s3 + s1s2 * c3,
    s1 * c2 * c3 - c1 * s2 * s3, c1 * s2 * c3 - s1 * c2 * s3⟩

/-- The rescaled component used by getEulerAngles: the component is
divided by the length first, unless the length is fuzzily null. -/
def eulerRescale (q : QQuaternion) (c : ℝ) : ℝ :=
  if qFuzzyIsNull q.length then c else c / q.length

/-- The sin(pitch) value getEulerAngles branches on:
-2 * (yps * zps - xps * wps) over the rescaled components. -/
def eulerSinP (q : QQuaternion) : ℝ :=
  -2 * (eulerRescale q q.yp * eulerRescale q q.zp
        - eulerRescale q q.xp * eulerRescale q q.wp)

/-- `getEulerAngles()`: returns (pitch, yaw, roll) in degrees.  Outside
the gimbal-lock region (|sin(pitch)| < 1 - 0.00001) the angles come
from asin and two-argument arctangents of the rescaled cross terms; in
the gimbal-lock region pitch is +-90 via copysign, yaw is
2*atan2(yps, wps) and roll is 0. -/
def getEulerAngles (q : QQuaternion) : ℝ × ℝ × ℝ :=
  let xps := eulerRescale q q.xp
  let yps := eulerRescale q q.yp
  let zps := eulerRescale q q.zp
  let wps := eulerRescale q q.wp
  if |eulerSinP q| < 1 - 0.00001 then
    (qRadiansToDegrees (Real.arcsin (eulerSinP q)),
     qRadiansToDegrees (atan2 (2 * (xps * zps + yps * wps))
       (1 - 2 * (xps * xps + yps * yps))),
     qRadiansToDegrees (atan2 (2 * (xps * yps + zps * wps))
       (1 - 2 * (xps * xps + zps * zps))))
  else
    (qRadiansToDegrees (copysign (Real.pi / 2) (eulerSinP q)),
     qRadiansToDegrees (2 * atan2 (eulerRescale q q.yp) (eulerRescale q q.wp)),
     qRadiansToDegrees 0)

/-- `toRotationMatrix()`: the standard closed-form 3x3 construction
from the quaternion cross terms, with no trigonometric calls. -/
def toRotationMatrix (q : QQuaternion) : QMatrix3x3 :=
  let f2x := q.xp + q.xp
  let f2y := q.yp + q.yp
  let f2z := q.zp + q.zp
  let f2xw := f2x * q.wp
  let f2yw := f2y * q.wp
  let f2zw := f2z * q.wp
  let f2xx := f2x * q.xp
  let f2xy := f2x * q.yp
  let f2xz := f2x * q.zp
  let f2yy := f2y * q.yp
  let f2yz := f2y * q.zp
  let f2zz := f2z * q.zp
  ⟨1 - (f2yy + f2zz), f2xy - f2zw, f2xz + f2yw,
   f2xy + f2zw, 1 - (f2xx + f2zz), f2yz - f2xw,
   f2xz - f2yw, f2yz + f2xw, 1 - (f2xx + f2yy)⟩

/-- `fromRotationMatrix(rot3x3)`: the trace-based extraction.  When the
trace is above 1e-8 the direct square-root formula is used; otherwise
the diagonal-dominant axis i is selected (i=0 by default, i=1 when
m11 > m00, i=2 when m22 beats the previous winner) and the alternate
formula with the cyclic indices j = next(i), k = next(j) is applied.
The source's dynamic (i, j, k) indexing is unrolled into the three
explicit cases. -/
def fromRotationMatrix (m : QMatrix3x3) : QQuaternion :=
  if 0.00000001 < m.m00 + m.m11 + m.m22 then
    ⟨0.25 * (2 * Real.sqrt (m.m00 + m.m11 + m.m22 + 1)),
     (m.m21 - m.m12) / (2 * Real.sqrt (m.m00 + m.m11 + m.m22 + 1)),
     (m.m02 - m.m20) / (2 * Real.sqrt (m.m00 + m.m11 + m.m22 + 1)),
     (m.m10 - m.m01) / (2 * Real.sqrt (m.m00 + m.m11 + m.m22 + 1))⟩
  else if (if m.m00 < m.m11 then m.m11 else m.m00) < m.m22 then
    ⟨(m.m10 - m.m01) / (2 * Real.sqrt (m.m22 - m.m00 - m.m11 + 1)),
     (m.m02 + m.m20) / (2 * Real.sqrt (m.m22 - m.m00 - m.m11 + 1)),
     (m.m12 + m.m21) / (2 * Real.sqrt (m.m22 - m.m00 - m.m11 + 1)),
     0.25 * (2 * Real.sqrt (m.m22 - m.m00 - m.m11 + 1))⟩
  else if m.m00 < m.m11 then
    ⟨(m.m02 - m.m20) / (2 * Real.sqrt (m.m11 - m.m22 - m.m00 + 1)),
     (m.m01 + m.m10) / (2 * Real.sqrt (m.m11 - m.m22 - m.m00 + 1)),
     0.25 * (2 * Real.sqrt (m.m11 - m.m22 - m.m00 + 1)),
     (m.m21 + m.m12) / (2 * Real.sqrt (m.m11 - m.m22 - m.m00 + 1))⟩
  else
    ⟨(m.m21 - m.m12) / (2 * Real.sqrt (m.m00 - m.m11 - m.m22 + 1)),
     0.25 * (2 * Real.sqrt (m.m00 - m.m11 - m.m22 + 1)),
     (m.m01 + m.m10) / (2 * Real.sqrt (m.m00 - m.m11 - m.m22 + 1)),
     (m.m02 + m.m20) / (2 * Real.sqrt (m.m00 - m.m11 - m.m22 + 1))⟩

/-- `fromAxes(xAxis, yAxis, zAxis)`: builds the column matrix from the
three axes and delegates to fromRotationMatrix. -/
def fromAxes (xAxis yAxis zAxis : QVector3D) : QQuaternion :=
  fromRotationMatrix
    ⟨xAxis.x, yAxis.x, zAxis.x,
     xAxis.y, yAxis.y, zAxis.y,
     xAxis.z, yAxis.z, zAxis.z⟩

/-- `rotationTo(from, to)`: Stan Melax's shortest-arc construction.
Both inputs are normalized; when d = dot + 1 is fuzzily zero the
antiparallel fallback returns a 180-degree rotation about a
perpendicular axis (the cross of the X axis with the source direction,
or of the Y axis when that cross is near zero); otherwise the
half-angle formula via sqrt(2d) is used. -/
def rotationTo (fromV toV : QVector3D) : QQuaternion :=
  let v0 := fromV.normalized
  let v1 := toV.normalized
  let d := QVector3D.dotProduct v0 v1 + 1
  if qFuzzyIsNull d then
    let axis0 := QVector3D.crossProduct ⟨1, 0, 0⟩ v0
    let axis1 := if qFuzzyIsNull axis0.lengthSquared
                 then QVector3D.crossProduct ⟨0, 1, 0⟩ v0 else axis0
    let axis := axis1.normalize
    ⟨0, axis.x, axis.y, axis.z⟩
  else
    let d2 := Real.sqrt (2 * d)
    let axis := QVector3D.crossProduct v0 v1
    normalized ⟨d2 * 0.5, axis.x / d2, axis.y / d2, axis.z / d2⟩

/-- `fromDirection(direction, up)`: returns the identity when every
component of direction is fuzzily null; falls back to the shortest arc
from the canonical forward axis (0,0,1) when up is collinear with the
direction; otherwise builds the orthonormal frame and delegates to
fromAxes. -/
def fromDirection (direction up : QVector3D) : QQuaternion :=
  if qFuzzyIsNull direction.x ∧ qFuzzyIsNull direction.y ∧ qFuzzyIsNull direction.z then
    ⟨1, 0, 0, 0⟩
  else
    let zAxis := direction.normalized
    let xAxis0 := QVector3D.crossProduct up zAxis
    if qFuzzyIsNull xAxis0.lengthSquared then
      rotationTo ⟨0, 0, 1⟩ zAxis
    else
      let xAxis := xAxis0.normalize
      let yAxis := QVector3D.crossProduct zAxis xAxis
      fromAxes xAxis yAxis zAxis

/-- `slerp(q1, q2, t)`: clamps at the boundaries (t <= 0 gives q1,
t >= 1 gives q2), negates q2 when the dot product is negative, and
uses the sine-based spherical factors unless 1 - dot or sin(angle) is
below 1e-7, in which case the factors stay linear. -/
def slerp (q1 q2 : QQuaternion) (t : ℝ) : QQuaternion :=
  if t ≤ 0 then q1
  else if 1 ≤ t then q2
  else
    let dot0 := dotProduct q1 q2
    let q2b := if dot0 < 0 then neg q2 else q2
    let dotA := if dot0 < 0 then -dot0 else dot0
    if 0.0000001 < 1 - dotA then
      if 0.0000001 < Real.sin (Real.arccos dotA) then
        add (smul q1 (Real.sin ((1 - t) * Real.arccos dotA) / Real.sin (Real.arccos dotA)))
            (smul q2b (Real.sin (t * Real.arccos dotA) / Real.sin (Real.arccos dotA)))
      else add (smul q1 (1 - t)) (smul q2b t)
    else add (smul q1 (1 - t)) (smul q2b t)

/-- The sign-corrected linear blend nlerp normalizes in its interior
case: q1 * (1 - t) + (q2 negated when the dot product is negative) * t. -/
def nlerpBlend (q1 q2 : QQuaternion) (t : ℝ) : QQuaternion :=
  add (smul q1 (1 - t)) (smul (if dotProduct q1 q2 < 0 then neg q2 else q2) t)

/-- `nlerp(q1, q2, t)`: clamps at the boundaries (t <= 0 gives q1,
t >= 1 gives q2) and otherwise normalizes the sign-corrected linear
blend. -/
def nlerp (q1 q2 : QQuaternion) (t : ℝ) : QQuaternion :=
  if t ≤ 0 then q1
  else if 1 ≤ t then q2
  else normalized (nlerpBlend q1 q2 t)

end QQuaternion

/-- Modelled from the spec: the stream write operator.  QDataStream is
the generic external serialization facility; a stream is modelled as
the sequence of floats written so far.  The operator appends the four
components in the fixed order scalar, x, y, z. -/
def writeQuaternion (stream : List ℝ) (q : QQuaternion) : List ℝ :=
  stream ++ [q.wp, q.xp, q.yp, q.zp]

/-- Modelled from the spec: the stream read operator.  It consumes four
floats in the order scalar, x, y, z and stores them into the
quaternion, returning the remaining stream. -/
def readQuaternion (stream : List ℝ) : Option (QQuaternion × List ℝ) :=
  match stream with
  | scalar :: x :: y :: z :: rest => some (⟨scalar, x, y, z⟩, rest)
  | _ => none

/-- Fuzzy equality of two quaternions: componentwise fuzzy comparison
of x, y, z and the scalar, as the relational qFuzzyCompare overload for
quaternions does. -/
def qFuzzyCompareQuat (q1 q2 : QQuaternion) : Prop :=
  qFuzzyCompare q1.xp q2.xp ∧ qFuzzyCompare q1.yp q2.yp ∧
    qFuzzyCompare q1.zp q2.zp ∧ qFuzzyCompare q1.wp q2.wp

lemma qFuzzyCompare_refl (a : ℝ) : qFuzzyCompare a a := by
  simp [qFuzzyCompare, abs_nonneg]

lemma qFuzzyCompare_one_one : qFuzzyCompare 1 1 := qFuzzyCompare_refl 1

lemma qFuzzyCompareQuat_refl (q : QQuaternion) : qFuzzyCompareQuat q q :=
  ⟨qFuzzyCompare_refl _, qFuzzyCompare_refl _, qFuzzyCompare_refl _,
    qFuzzyCompare_refl _⟩

lemma length_nonneg (q : QQuaternion) : 0 ≤ q.length :=
  Real.sqrt_nonneg _

/-- A length that is not fuzzily null is strictly positive. -/
lemma length_pos_of_not_fuzzyNull {q : QQuaternion}
    (h : ¬ qFuzzyIsNull q.length) : 0 < q.length := by
  have h0 := length_nonneg q
  by_contra hle
  exact h (by simp [qFuzzyIsNull, abs_of_nonneg h0]; linarith)

/-- The squared length is the square of the length. -/
lemma length_mul_self (q : QQuaternion) :
    q.length * q.length = q.xp * q.xp + q.yp * q.yp + q.zp * q.zp + q.wp * q.wp := by
  have h : 0 ≤ q.xp * q.xp + q.yp * q.yp + q.zp * q.zp + q.wp * q.wp :=
    add_nonneg (add_nonneg (add_nonneg (mul_self_nonneg _) (mul_self_nonneg _))
      (mul_self_nonneg _)) (mul_self_nonneg _)
  exact Real.mul_self_sqrt h

/-- Shared helper: whenever the length is not fuzzily null, the
normalized quaternion has length fuzzily equal to 1. -/
lemma normalized_length_fuzzyOne {q : QQuaternion}
    (h : ¬ qFuzzyIsNull q.length) :
    qFuzzyCompare q.normalized.length 1 := by
  by_cases h1 : qFuzzyCompare q.length 1
  · rw [QQuaternion.normalized, if_pos h1]
    exact h1
  · rw [QQuaternion.normalized, if_neg h1, if_neg h]
    have hpos : 0 < q.length := length_pos_of_not_fuzzyNull h
    have hne : q.length ≠ 0 := ne_of_gt hpos
    have hsum : q.xp * q.xp + q.yp * q.yp + q.zp * q.zp + q.wp * q.wp
        = q.length * q.length := (length_mul_self q).symm
    have hval : QQuaternion.length
        ⟨q.wp / q.length, q.xp / q.length, q.yp / q.length, q.zp / q.length⟩ = 1 := by
      show Real.sqrt _ = 1
      have : q.xp / q.length * (q.xp / q.length) + q.yp / q.length * (q.yp / q.length)
          + q.zp / q.length * (q.zp / q.length) + q.wp / q.length * (q.wp / q.length)
          = 1 := by
        field_simp
        linear_combination hsum
      rw [this, Real.sqrt_one]
    rw [hval]
    exact qFuzzyCompare_one_one

/-- A fuzzily-null length can never be fuzzily equal to 1. -/
lemma not_fuzzyCompare_one_of_fuzzyNull {a : ℝ} (h : qFuzzyIsNull a) :
    ¬ qFuzzyCompare a 1 := by
  simp only [qFuzzyIsNull] at h
  intro hc
  simp only [qFuzzyCompare] at hc
  have h1 : min |a| |(1 : ℝ)| ≤ |a| := min_le_left _ _
  have h2 : |(1 : ℝ)| - |a| ≤ |a - 1| := by
    have h3 := abs_sub_abs_le_abs_sub (1 : ℝ) a
    rw [abs_sub_comm] at h3
    linarith
  rw [abs_one] at h2
  nlinarith

lemma length_two_quat : (QQuaternion.mk 2 0 0 0).length = 2 := by
  show Real.sqrt (0 * 0 + 0 * 0 + 0 * 0 + 2 * 2) = 2
  rw [show (0 : ℝ) * 0 + 0 * 0 + 0 * 0 + 2 * 2 = (2 : ℝ) ^ 2 by norm_num,
    Real.sqrt_sq (by norm_num : (0 : ℝ) ≤ 2)]

lemma length_tiny_quat : (QQuaternion.mk (1/1000000) 0 0 0).length = 1/1000000 := by
  show Real.sqrt (0 * 0 + 0 * 0 + 0 * 0 + 1/1000000 * (1/1000000)) = 1/1000000
  rw [show (0 : ℝ) * 0 + 0 * 0 + 0 * 0 + 1/1000000 * (1/1000000)
      = ((1 : ℝ)/1000000) ^ 2 by norm_num,
    Real.sqrt_sq (by norm_num : (0 : ℝ) ≤ 1/1000000)]

lemma length_null_quat : (QQuaternion.mk 0 0 0 0).length = 0 := by
  show Real.sqrt (0 * 0 + 0 * 0 + 0 * 0 + 0 * 0) = 0
  norm_num

lemma not_fuzzyOne_zero : ¬ qFuzzyCompare (0 : ℝ) 1 := by
  norm_num [qFuzzyCompare, abs, max_def, min_def]

lemma not_fuzzyOne_two : ¬ qFuzzyCompare (2 : ℝ) 1 := by
  norm_num [qFuzzyCompare, abs, max_def, min_def]

lemma not_fuzzyNull_two : ¬ qFuzzyIsNull (2 : ℝ) := by
  norm_num [qFuzzyIsNull, abs, max_def]

/-- The tiny non-null quaternion (1e-6, 0, 0, 0) is normalized to the
exact null quaternion: its length is fuzzily zero. -/
lemma normalized_tiny_quat :
    (QQuaternion.mk (1/1000000) 0 0 0).normalized = ⟨0, 0, 0, 0⟩ := by
  rw [QQuaternion.normalized, length_tiny_quat,
    if_neg (by norm_num [qFuzzyCompare, abs, max_def, min_def]),
    if_pos (by norm_num [qFuzzyIsNull, abs, max_def])]

/-- Claim C1 (amended): whenever the length of a quaternion is not
fuzzily zero, `normalized` produces a quaternion whose length is
fuzzily 1; `normalized` returns the quaternion unchanged when the
length is fuzzily 1, the exact null quaternion when the length is
fuzzily zero, and otherwise each component divided by the length. -/
theorem normalized_unit_length_amended (q : QQuaternion) :
    (qFuzzyCompare q.length 1 → q.normalized = q) ∧
    (qFuzzyIsNull q.length → q.normalized = ⟨0, 0, 0, 0⟩) ∧
    (¬ qFuzzyCompare q.length 1 → ¬ qFuzzyIsNull q.length →
      q.normalized = ⟨q.wp / q.length, q.xp / q.length, q.yp / q.length, q.zp / q.length⟩) ∧
    (¬ qFuzzyIsNull q.length → qFuzzyCompare q.normalized.length 1) := by
  refine ⟨fun h1 => ?_, fun h0 => ?_, fun h1 h0 => ?_, fun h0 => ?_⟩
  · rw [QQuaternion.normalized, if_pos h1]
  · rw [QQuaternion.normalized, if_neg (not_fuzzyCompare_one_of_fuzzyNull h0), if_pos h0]
  · rw [QQuaternion.normalized, if_neg h1, if_neg h0]
  · exact normalized_length_fuzzyOne h0

/-- Claim C1 witness: the quaternion (2, 0, 0, 0) has length 2, which
is not fuzzily zero, and its normalized form has length fuzzily 1. -/
theorem normalized_unit_length_witness :
    qFuzzyCompare (QQuaternion.normalized ⟨2, 0, 0, 0⟩).length 1 := by
  apply (normalized_unit_length_amended ⟨2, 0, 0, 0⟩).2.2.2
  rw [length_two_quat]
  exact not_fuzzyNull_two

/-- Claim C1 counterexample: the quaternion (0.000001, 0, 0, 0) is not
null, yet its length is fuzzily zero, so `normalized` returns the null
quaternion, whose length 0 is not fuzzily 1.  The claim as stated
(every non-null quaternion normalizes to fuzzy unit length) is
therefore false. -/
theorem normalized_tiny_nonNull_counterexample :
    ¬ (QQuaternion.mk (1/1000000) 0 0 0).isNull ∧
    ¬ qFuzzyCompare (QQuaternion.mk (1/1000000) 0 0 0).normalized.length 1 := by
  constructor
  · simp [QQuaternion.isNull]
  · rw [normalized_tiny_quat, length_null_quat]
    exact not_fuzzyOne_zero

/-- For a unit quaternion the rotation-matrix roundtrip is exact up to
the global sign: every branch of the trace-based extraction recovers
the components scaled by the sign of the branch-dominant component. -/
lemma roundtrip_rotationMatrix_exact (q : QQuaternion) (h : q.lengthSquared = 1) :
    QQuaternion.fromRotationMatrix (QQuaternion.toRotationMatrix q) = q ∨
    QQuaternion.fromRotationMatrix (QQuaternion.toRotationMatrix q) = q.neg := by
  obtain ⟨w, x, y, z⟩ := q
  simp only [QQuaternion.lengthSquared] at h
  simp only [QQuaternion.toRotationMatrix, QQuaternion.fromRotationMatrix, QQuaternion.neg]
  split_ifs with hc1 hcA hcB hcC
  · rw [show (1 - ((y + y) * y + (z + z) * z)) + (1 - ((x + x) * x + (z + z) * z))
        + (1 - ((x + x) * x + (y + y) * y)) + 1 = (2 * w) ^ 2 by linear_combination (-4) * h,
      Real.sqrt_sq_eq_abs]
    have hw : w ≠ 0 := by
      intro h0
      rw [h0] at h
      nlinarith [hc1, h]
    rcases lt_or_gt_of_ne hw with hneg | hpos
    · right
      rw [abs_of_neg (by linarith : 2 * w < 0)]
      ext <;> (try field_simp) <;> ring
    · left
      rw [abs_of_pos (by linarith : 0 < 2 * w)]
      ext <;> (try field_simp) <;> ring
  · rw [show (1 - ((x + x) * x + (y + y) * y)) - (1 - ((y + y) * y + (z + z) * z))
        - (1 - ((x + x) * x + (z + z) * z)) + 1 = (2 * z) ^ 2 by ring,
      Real.sqrt_sq_eq_abs]
    have hz : z ≠ 0 := by
      intro h0
      rw [h0] at hcB
      nlinarith [hcB, mul_self_nonneg y]
    rcases lt_or_gt_of_ne hz with hneg | hpos
    · right
      rw [abs_of_neg (by linarith : 2 * z < 0)]
      ext <;> (try field_simp) <;> ring
    · left
      rw [abs_of_pos (by linarith : 0 < 2 * z)]
      ext <;> (try field_simp) <;> ring
  · rw [show (1 - ((x + x) * x + (z + z) * z)) - (1 - ((x + x) * x + (y + y) * y))
        - (1 - ((y + y) * y + (z + z) * z)) + 1 = (2 * y) ^ 2 by ring,
      Real.sqrt_sq_eq_abs]
    have hy : y ≠ 0 := by
      intro h0
      rw [h0] at hcA
      nlinarith [hcA, mul_self_nonneg x]
    rcases lt_or_gt_of_ne hy with hneg | hpos
    · right
      rw [abs_of_neg (by linarith : 2 * y < 0)]
      ext <;> (try field_simp) <;> ring
    · left
      rw [abs_of_pos (by linarith : 0 < 2 * y)]
      ext <;> (try field_simp) <;> ring
  · rw [show (1 - ((x + x) * x + (y + y) * y)) - (1 - ((y + y) * y + (z + z) * z))
        - (1 - ((x + x) * x + (z + z) * z)) + 1 = (2 * z) ^ 2 by ring,
      Real.sqrt_sq_eq_abs]
    have hz : z ≠ 0 := by
      intro h0
      rw [h0] at hcC
      nlinarith [hcC, mul_self_nonneg x]
    rcases lt_or_gt_of_ne hz with hneg | hpos
    · right
      rw [abs_of_neg (by linarith : 2 * z < 0)]
      ext <;> (try field_simp) <;> ring
    · left
      rw [abs_of_pos (by linarith : 0 < 2 * z)]
      ext <;> (try field_simp) <;> ring
  · rw [show (1 - ((y + y) * y + (z + z) * z)) - (1 - ((x + x) * x + (z + z) * z))
        - (1 - ((x + x) * x + (y + y) * y)) + 1 = (2 * x) ^ 2 by ring,
      Real.sqrt_sq_eq_abs]
    have hx : x ≠ 0 := by
      intro h0
      rw [h0] at hcA hcC hc1
      push_neg at hcA hcC hc1
      nlinarith [hcA, hcC, hc1, mul_self_nonneg y, mul_self_nonneg z]
    rcases lt_or_gt_of_ne hx with hneg | hpos
    · right
      rw [abs_of_neg (by linarith : 2 * x < 0)]
      ext <;> (try field_simp) <;> ring
    · left
      rw [abs_of_pos (by linarith : 0 < 2 * x)]
      ext <;> (try field_simp) <;> ring

/-- Claim C2: for every unit quaternion q,
fromRotationMatrix(toRotationMatrix(q)) is fuzzily equal to q or to -q
(the double-cover sign ambiguity); over the reals the roundtrip is in
fact exact up to that sign. -/
theorem fromRotationMatrix_toRotationMatrix_double_cover (q : QQuaternion)
    (h : q.lengthSquared = 1) :
    qFuzzyCompareQuat (QQuaternion.fromRotationMatrix (QQuaternion.toRotationMatrix q)) q ∨
    qFuzzyCompareQuat (QQuaternion.fromRotationMatrix (QQuaternion.toRotationMatrix q)) q.neg := by
  rcases roundtrip_rotationMatrix_exact q h with heq | heq
  · left
    rw [heq]
    exact qFuzzyCompareQuat_refl q
  · right
    rw [heq]
    exact qFuzzyCompareQuat_refl _

/-- Claim C2 witness: the identity quaternion is a unit quaternion and
its rotation-matrix roundtrip is fuzzily itself or its negation. -/
theorem fromRotationMatrix_toRotationMatrix_double_cover_witness :
    qFuzzyCompareQuat
      (QQuaternion.fromRotationMatrix (QQuaternion.toRotationMatrix ⟨1, 0, 0, 0⟩))
      ⟨1, 0, 0, 0⟩ ∨
    qFuzzyCompareQuat
      (QQuaternion.fromRotationMatrix (QQuaternion.toRotationMatrix ⟨1, 0, 0, 0⟩))
      (QQuaternion.neg ⟨1, 0, 0, 0⟩) :=
  fromRotationMatrix_toRotationMatrix_double_cover ⟨1, 0, 0, 0⟩
    (by show (0 : ℝ) * 0 + 0 * 0 + 0 * 0 + 1 * 1 = 1; norm_num)

/-- Claim C4 (amended): slerp returns q1 exactly when t is at most 0
and q2 exactly when t is at least 1, for all quaternions; and
slerp(q, q, t) = q holds for unit quaternions (the interior spherical
factors only sum to 1 when the common dot product is 1). -/
theorem slerp_boundaries_and_unit_self (q1 q2 q : QQuaternion) (t : ℝ) :
    (t ≤ 0 → QQuaternion.slerp q1 q2 t = q1) ∧
    (1 ≤ t → QQuaternion.slerp q1 q2 t = q2) ∧
    (q.lengthSquared = 1 → QQuaternion.slerp q q t = q) := by
  refine ⟨fun h0 => ?_, fun h1 => ?_, fun hq => ?_⟩
  · rw [QQuaternion.slerp, if_pos h0]
  · rw [QQuaternion.slerp, if_neg (by linarith), if_pos h1]
  · by_cases h0 : t ≤ 0
    · rw [QQuaternion.slerp, if_pos h0]
    · by_cases h1 : 1 ≤ t
      · rw [QQuaternion.slerp, if_neg h0, if_pos h1]
      · rw [QQuaternion.slerp, if_neg h0, if_neg h1]
        have hdot : QQuaternion.dotProduct q q = 1 := hq
        dsimp only
        rw [hdot]
        simp only [if_neg (show ¬ ((1 : ℝ) < 0) by norm_num)]
        rw [if_neg (by norm_num : ¬ (0.0000001 : ℝ) < 1 - 1)]
        ext <;> dsimp [QQuaternion.add, QQuaternion.smul] <;> ring

/-- Claim C4 witness: at the concrete inputs q1 = (1,0,0,0),
q2 = (0,1,0,0), t = -1 and the unit quaternion q = (1,0,0,0) with
t = 1/2, the boundary clamp and the unit self-interpolation hold. -/
theorem slerp_boundaries_and_unit_self_witness :
    QQuaternion.slerp ⟨1, 0, 0, 0⟩ ⟨0, 1, 0, 0⟩ (-1) = ⟨1, 0, 0, 0⟩ ∧
    QQuaternion.slerp ⟨1, 0, 0, 0⟩ ⟨1, 0, 0, 0⟩ (1/2) = ⟨1, 0, 0, 0⟩ := by
  constructor
  · exact (slerp_boundaries_and_unit_self ⟨1, 0, 0, 0⟩ ⟨0, 1, 0, 0⟩ ⟨1, 0, 0, 0⟩ (-1)).1
      (by norm_num)
  · exact (slerp_boundaries_and_unit_self ⟨1, 0, 0, 0⟩ ⟨1, 0, 0, 0⟩ ⟨1, 0, 0, 0⟩ (1/2)).2.2
      (by show (0 : ℝ) * 0 + 0 * 0 + 0 * 0 + 1 * 1 = 1; norm_num)

/-- Claim C4 counterexample: for the non-unit quaternion
q = (1/2, 0, 0, 0) and t = 1/2, slerp(q, q, t) is not q: the spherical
factors sum to 1/cos(arccos(1/4)/2) > 1, so the claim that
slerp(q, q, t) = q for every quaternion is false. -/
theorem slerp_self_not_identity_counterexample :
    QQuaternion.slerp ⟨1/2, 0, 0, 0⟩ ⟨1/2, 0, 0, 0⟩ (1/2) ≠ ⟨1/2, 0, 0, 0⟩ := by
  have hdot : QQuaternion.dotProduct ⟨1/2, 0, 0, 0⟩ ⟨1/2, 0, 0, 0⟩ = 1/4 := by
    show (0 : ℝ) * 0 + 0 * 0 + 0 * 0 + 1/2 * (1/2) = 1/4
    norm_num
  set a := Real.arccos (1/4) with ha
  have ha1 : 0 < a := Real.arccos_pos.2 (by norm_num)
  have ha2 : a < Real.pi / 2 := Real.arccos_lt_pi_div_two.2 (by norm_num)
  have hsa : Real.sin a = Real.sqrt (1 - (1/4) ^ 2) := Real.sin_arccos _
  have hsin2 : 0 < Real.sin (a/2) :=
    Real.sin_pos_of_pos_of_lt_pi (by linarith) (by nlinarith [Real.pi_pos])
  have hcos2pos : 0 < Real.cos (a/2) :=
    Real.cos_pos_of_mem_Ioo ⟨by nlinarith [Real.pi_pos], by linarith⟩
  have hcos2 : Real.cos (a/2) < 1 := by
    nlinarith [Real.sin_sq_add_cos_sq (a/2), mul_pos hsin2 hsin2,
      sq_nonneg (Real.cos (a/2) - 1)]
  have hsinsplit : Real.sin a = 2 * Real.sin (a/2) * Real.cos (a/2) := by
    conv_lhs => rw [show a = 2 * (a/2) by ring]
    rw [Real.sin_two_mul]
  have hguard : (0.0000001 : ℝ) < Real.sin a := by
    rw [hsa]
    nlinarith [Real.sq_sqrt (by norm_num : (0 : ℝ) ≤ 1 - (1/4) ^ 2),
      Real.sqrt_nonneg (1 - (1/4) ^ 2)]
  intro heq
  rw [QQuaternion.slerp, if_neg (by norm_num), if_neg (by norm_num)] at heq
  dsimp only at heq
  rw [hdot] at heq
  simp only [if_neg (show ¬ ((1/4 : ℝ) < 0) by norm_num)] at heq
  rw [if_pos (by norm_num : (0.0000001 : ℝ) < 1 - 1/4), ← ha, if_pos hguard] at heq
  have hwp := congrArg QQuaternion.wp heq
  dsimp [QQuaternion.add, QQuaternion.smul] at hwp
  rw [show (1 : ℝ) - 1/2 = 1/2 by norm_num, show (1 : ℝ)/2 * a = a/2 by ring,
    hsinsplit] at hwp
  have hcne : Real.cos (a/2) ≠ 0 := ne_of_gt hcos2pos
  have hsne : Real.sin (a/2) ≠ 0 := ne_of_gt hsin2
  field_simp at hwp
  nlinarith [hwp, hsin2, hcos2]

/-- Claim C5 (amended): in the interior 0 < t < 1, whenever the
sign-corrected linear blend does not have fuzzily-zero length, the
nlerp result has length fuzzily equal to 1; at the boundaries t <= 0
and t >= 1 the inputs are returned unchanged, whatever their length. -/
theorem nlerp_interior_unit_length (q1 q2 : QQuaternion) (t : ℝ) :
    (t ≤ 0 → QQuaternion.nlerp q1 q2 t = q1) ∧
    (1 ≤ t → QQuaternion.nlerp q1 q2 t = q2) ∧
    (0 < t → t < 1 → ¬ qFuzzyIsNull (QQuaternion.nlerpBlend q1 q2 t).length →
      qFuzzyCompare (QQuaternion.nlerp q1 q2 t).length 1) := by
  refine ⟨fun h0 => ?_, fun h1 => ?_, fun h0 h1 hb => ?_⟩
  · rw [QQuaternion.nlerp, if_pos h0]
  · rw [QQuaternion.nlerp, if_neg (by linarith), if_pos h1]
  · rw [QQuaternion.nlerp, if_neg (by linarith), if_neg (by linarith)]
    exact normalized_length_fuzzyOne hb

/-- Claim C5 witness: for q1 = (2,0,0,0), q2 = (1,0,0,0), t = 1/2 the
blend is (3/2,0,0,0), whose length 3/2 is not fuzzily zero, and the
nlerp result has length fuzzily 1. -/
theorem nlerp_interior_unit_length_witness :
    qFuzzyCompare (QQuaternion.nlerp ⟨2, 0, 0, 0⟩ ⟨1, 0, 0, 0⟩ (1/2)).length 1 := by
  apply (nlerp_interior_unit_length ⟨2, 0, 0, 0⟩ ⟨1, 0, 0, 0⟩ (1/2)).2.2
    (by norm_num) (by norm_num)
  have hd : QQuaternion.dotProduct ⟨2, 0, 0, 0⟩ ⟨1, 0, 0, 0⟩ = 2 := by
    show (0 : ℝ) * 0 + 0 * 0 + 0 * 0 + 2 * 1 = 2
    norm_num
  have hblend : QQuaternion.nlerpBlend ⟨2, 0, 0, 0⟩ ⟨1, 0, 0, 0⟩ (1/2)
      = ⟨3/2, 0, 0, 0⟩ := by
    rw [QQuaternion.nlerpBlend, hd, if_neg (by norm_num : ¬ (2 : ℝ) < 0)]
    ext <;> dsimp [QQuaternion.add, QQuaternion.smul] <;> norm_num
  rw [hblend]
  have hl : (QQuaternion.mk (3/2) 0 0 0).length = 3/2 := by
    show Real.sqrt (0 * 0 + 0 * 0 + 0 * 0 + 3/2 * (3/2)) = 3/2
    rw [show (0 : ℝ) * 0 + 0 * 0 + 0 * 0 + 3/2 * (3/2) = ((3 : ℝ)/2) ^ 2 by norm_num,
      Real.sqrt_sq (by norm_num : (0 : ℝ) ≤ 3/2)]
  rw [hl]
  norm_num [qFuzzyIsNull, abs, max_def]

/-- Claim C5 counterexample: the claim that nlerp always returns a unit
quaternion for non-null inputs fails twice: at t = 0 the non-unit q1 =
(2,0,0,0) is returned unchanged, and in the interior t = 1/2 two tiny
non-null inputs blend to a fuzzily-null quaternion that normalizes to
the exact null quaternion of length 0. -/
theorem nlerp_not_always_unit_counterexample :
    (¬ (QQuaternion.mk 2 0 0 0).isNull ∧ ¬ (QQuaternion.mk 1 0 0 0).isNull ∧
      ¬ qFuzzyCompare (QQuaternion.nlerp ⟨2, 0, 0, 0⟩ ⟨1, 0, 0, 0⟩ 0).length 1) ∧
    (¬ (QQuaternion.mk (1/1000000) 0 0 0).isNull ∧
      ¬ qFuzzyCompare
        (QQuaternion.nlerp ⟨1/1000000, 0, 0, 0⟩ ⟨1/1000000, 0, 0, 0⟩ (1/2)).length 1) := by
  refine ⟨⟨by simp [QQuaternion.isNull], by simp [QQuaternion.isNull], ?_⟩,
    by simp [QQuaternion.isNull], ?_⟩
  · rw [QQuaternion.nlerp, if_pos le_rfl, length_two_quat]
    exact not_fuzzyOne_two
  · have hd : QQuaternion.dotProduct ⟨1/1000000, 0, 0, 0⟩ ⟨1/1000000, 0, 0, 0⟩
        = 1/1000000000000 := by
      show (0 : ℝ) * 0 + 0 * 0 + 0 * 0 + 1/1000000 * (1/1000000) = 1/1000000000000
      norm_num
    have hblend : QQuaternion.nlerpBlend ⟨1/1000000, 0, 0, 0⟩ ⟨1/1000000, 0, 0, 0⟩ (1/2)
        = ⟨1/1000000, 0, 0, 0⟩ := by
      rw [QQuaternion.nlerpBlend, hd, if_neg (by norm_num : ¬ (1/1000000000000 : ℝ) < 0)]
      ext <;> dsimp [QQuaternion.add, QQuaternion.smul] <;> norm_num
    rw [QQuaternion.nlerp, if_neg (by norm_num), if_neg (by norm_num), hblend,
      normalized_tiny_quat, length_null_quat]
    exact not_fuzzyOne_zero

lemma qFuzzyIsNull_zero : qFuzzyIsNull (0 : ℝ) := by
  norm_num [qFuzzyIsNull]

/-- Multiplying by a factor that is fuzzily 1 yields a fuzzily equal
value. -/
lemma qFuzzyCompare_mul_of_fuzzyOne {s : ℝ} (a : ℝ) (h : qFuzzyCompare s 1) :
    qFuzzyCompare (a * s) a := by
  simp only [qFuzzyCompare] at h ⊢
  have habs : 0 ≤ |a| := abs_nonneg a
  have h2 : |a * s - a| * 100000 = |a| * (|s - 1| * 100000) := by
    rw [show a * s - a = a * (s - 1) by ring, abs_mul]
    ring
  rw [h2]
  calc |a| * (|s - 1| * 100000) ≤ |a| * min |s| |1| :=
        mul_le_mul_of_nonneg_left h habs
    _ = min (|a| * |s|) (|a| * |1|) := mul_min_of_nonneg _ _ habs
    _ = min |a * s| |a| := by rw [← abs_mul, ← abs_mul, mul_one]

/-- For a unit axis, fromAxisAndAngle skips the axis renormalization
and the final normalization leaves the half-angle quaternion
unchanged, because its length is exactly 1. -/
lemma fromAxisAndAngle_unit_axis (ax ay az θ : ℝ)
    (hunit : ax * ax + ay * ay + az * az = 1) :
    QQuaternion.fromAxisAndAngle ax ay az θ =
      ⟨Real.cos (qDegreesToRadians (θ / 2)),
       ax * Real.sin (qDegreesToRadians (θ / 2)),
       ay * Real.sin (qDegreesToRadians (θ / 2)),
       az * Real.sin (qDegreesToRadians (θ / 2))⟩ := by
  rw [QQuaternion.fromAxisAndAngle]
  rw [hunit, Real.sqrt_one]
  have hcond : ¬ (¬ qFuzzyCompare (1 : ℝ) 1 ∧ ¬ qFuzzyIsNull (1 : ℝ)) :=
    fun hc => hc.1 qFuzzyCompare_one_one
  simp only [if_neg hcond]
  rw [QQuaternion.normalized]
  have hlen : (QQuaternion.mk (Real.cos (qDegreesToRadians (θ / 2)))
      (ax * Real.sin (qDegreesToRadians (θ / 2)))
      (ay * Real.sin (qDegreesToRadians (θ / 2)))
      (az * Real.sin (qDegreesToRadians (θ / 2)))).length = 1 := by
    show Real.sqrt _ = 1
    rw [show ax * Real.sin (qDegreesToRadians (θ / 2)) * (ax * Real.sin (qDegreesToRadians (θ / 2)))
        + ay * Real.sin (qDegreesToRadians (θ / 2)) * (ay * Real.sin (qDegreesToRadians (θ / 2)))
        + az * Real.sin (qDegreesToRadians (θ / 2)) * (az * Real.sin (qDegreesToRadians (θ / 2)))
        + Real.cos (qDegreesToRadians (θ / 2)) * Real.cos (qDegreesToRadians (θ / 2)) = 1 by
      linear_combination (Real.sin (qDegreesToRadians (θ / 2))
        * Real.sin (qDegreesToRadians (θ / 2))) * hunit
        + Real.sin_sq_add_cos_sq (qDegreesToRadians (θ / 2)),
      Real.sqrt_one]
  rw [hlen, if_pos qFuzzyCompare_one_one]

/-- Claim C3 (amended): for a unit axis a and an angle in (0, 180]
whose half-angle sine is not fuzzily zero, getAxisAndAngle of
fromAxisAndAngle recovers the angle exactly and the axis up to the
fuzzy tolerance, and the recovered angle, 2*acos(scalar) in degrees,
lies in [0, 360]; at angle 0 (and more generally whenever the
half-angle sine is fuzzily zero) the zero-axis, zero-angle sentinel is
returned instead. -/
theorem getAxisAndAngle_fromAxisAndAngle_roundtrip (ax ay az θ : ℝ)
    (hunit : ax * ax + ay * ay + az * az = 1) :
    (0 < θ → θ ≤ 180 →
      ¬ qFuzzyIsNull (Real.sin (qDegreesToRadians (θ / 2))) →
      (QQuaternion.getAxisAndAngle (QQuaternion.fromAxisAndAngle ax ay az θ)).2 = θ ∧
      qFuzzyCompare
        (QQuaternion.getAxisAndAngle (QQuaternion.fromAxisAndAngle ax ay az θ)).1.1 ax ∧
      qFuzzyCompare
        (QQuaternion.getAxisAndAngle (QQuaternion.fromAxisAndAngle ax ay az θ)).1.2.1 ay ∧
      qFuzzyCompare
        (QQuaternion.getAxisAndAngle (QQuaternion.fromAxisAndAngle ax ay az θ)).1.2.2 az ∧
      0 ≤ (QQuaternion.getAxisAndAngle (QQuaternion.fromAxisAndAngle ax ay az θ)).2 ∧
      (QQuaternion.getAxisAndAngle (QQuaternion.fromAxisAndAngle ax ay az θ)).2 ≤ 360) ∧
    QQuaternion.getAxisAndAngle (QQuaternion.fromAxisAndAngle ax ay az 0)
      = ((0, 0, 0), 0) := by
  constructor
  · intro hθ0 hθ180 hsin
    set A := qDegreesToRadians (θ / 2) with hA
    have hApos : 0 < A := by
      rw [hA, qDegreesToRadians]
      positivity
    have hAle : A ≤ Real.pi / 2 := by
      rw [hA, qDegreesToRadians]
      nlinarith [Real.pi_pos]
    have hs : 0 < Real.sin A :=
      Real.sin_pos_of_pos_of_lt_pi hApos (by linarith [Real.pi_pos])
    have heval : QQuaternion.getAxisAndAngle (QQuaternion.fromAxisAndAngle ax ay az θ)
        = ((if qFuzzyCompare (Real.sin A) 1
            then (ax * Real.sin A, ay * Real.sin A, az * Real.sin A)
            else (ax * Real.sin A / Real.sin A, ay * Real.sin A / Real.sin A,
                  az * Real.sin A / Real.sin A)), θ) := by
      rw [fromAxisAndAngle_unit_axis ax ay az θ hunit, QQuaternion.getAxisAndAngle]
      dsimp only
      rw [show ax * Real.sin A * (ax * Real.sin A) + ay * Real.sin A * (ay * Real.sin A)
          + az * Real.sin A * (az * Real.sin A) = Real.sin A ^ 2 by
        linear_combination (Real.sin A * Real.sin A) * hunit,
        Real.sqrt_sq hs.le, if_pos hsin,
        Real.arccos_cos hApos.le (by linarith [Real.pi_pos]),
        show qRadiansToDegrees (2 * A) = θ by
          rw [hA, qRadiansToDegrees, qDegreesToRadians]
          field_simp
          ring]
    rw [heval]
    by_cases hfz : qFuzzyCompare (Real.sin A) 1
    · rw [if_pos hfz]
      exact ⟨rfl, qFuzzyCompare_mul_of_fuzzyOne ax hfz,
        qFuzzyCompare_mul_of_fuzzyOne ay hfz, qFuzzyCompare_mul_of_fuzzyOne az hfz,
        by linarith, by linarith⟩
    · rw [if_neg hfz]
      rw [mul_div_cancel_right₀ ax (ne_of_gt hs), mul_div_cancel_right₀ ay (ne_of_gt hs),
        mul_div_cancel_right₀ az (ne_of_gt hs)]
      exact ⟨rfl, qFuzzyCompare_refl ax, qFuzzyCompare_refl ay, qFuzzyCompare_refl az,
        by linarith, by linarith⟩
  · have h0 : qDegreesToRadians (0 / 2) = 0 := by
      rw [qDegreesToRadians]
      norm_num
    rw [fromAxisAndAngle_unit_axis ax ay az 0 hunit, h0, Real.sin_zero, Real.cos_zero,
      mul_zero, mul_zero, mul_zero, QQuaternion.getAxisAndAngle]
    dsimp only
    rw [show (0 : ℝ) * 0 + 0 * 0 + 0 * 0 = 0 by norm_num, Real.sqrt_zero,
      if_neg (not_not_intro qFuzzyIsNull_zero)]

/-- Claim C3 witness: with the unit x-axis and angle 90 degrees, the
half-angle sine sqrt(2)/2 is not fuzzily zero, and the roundtrip
recovers angle 90 exactly and the axis up to the fuzzy tolerance. -/
theorem getAxisAndAngle_fromAxisAndAngle_roundtrip_witness :
    (QQuaternion.getAxisAndAngle (QQuaternion.fromAxisAndAngle 1 0 0 90)).2 = 90 ∧
    qFuzzyCompare
      (QQuaternion.getAxisAndAngle (QQuaternion.fromAxisAndAngle 1 0 0 90)).1.1 1 := by
  have hsin45 : ¬ qFuzzyIsNull (Real.sin (qDegreesToRadians (90 / 2))) := by
    rw [show qDegreesToRadians (90 / 2) = Real.pi / 4 by rw [qDegreesToRadians]; ring,
      Real.sin_pi_div_four]
    have h2 : (1 : ℝ) ≤ Real.sqrt 2 := by
      rw [show (1 : ℝ) = Real.sqrt 1 by rw [Real.sqrt_one]]
      exact Real.sqrt_le_sqrt (by norm_num)
    rw [qFuzzyIsNull, abs_of_pos (by linarith : (0 : ℝ) < Real.sqrt 2 / 2)]
    norm_num
    linarith
  have h := (getAxisAndAngle_fromAxisAndAngle_roundtrip 1 0 0 90 (by norm_num)).1
    (by norm_num) (by norm_num) hsin45
  exact ⟨h.1, h.2.1⟩

/-- Claim C3 counterexample: at the unit x-axis and the small non-zero
angle 0.001 degrees the half-angle sine is fuzzily zero, so
getAxisAndAngle returns the zero-axis, zero-angle sentinel: neither
the axis (its x component 0 is not fuzzily 1) nor the angle (0 is not
fuzzily 0.001, which is non-zero) is recovered, refuting the claim
that only angle 0 hits the sentinel. -/
theorem getAxisAndAngle_small_angle_counterexample :
    QQuaternion.getAxisAndAngle (QQuaternion.fromAxisAndAngle 1 0 0 (1/1000))
      = ((0, 0, 0), 0) ∧
    ¬ qFuzzyCompare (0 : ℝ) 1 ∧ ¬ qFuzzyCompare (0 : ℝ) (1/1000) ∧ (1/1000 : ℝ) ≠ 0 := by
  refine ⟨?_, not_fuzzyOne_zero,
    by norm_num [qFuzzyCompare, abs, max_def, min_def], by norm_num⟩
  set A := qDegreesToRadians (1/1000 / 2) with hA
  have hAval : A = Real.pi / 360000 := by
    rw [hA, qDegreesToRadians]
    ring
  have hApos : 0 < A := by
    rw [hAval]
    positivity
  have hsnn : 0 ≤ Real.sin A :=
    Real.sin_nonneg_of_nonneg_of_le_pi hApos.le
      (by rw [hAval]; nlinarith [Real.pi_pos])
  have hsnull : qFuzzyIsNull (Real.sin A) := by
    rw [qFuzzyIsNull, abs_of_nonneg hsnn]
    have h1 : Real.sin A < A := Real.sin_lt hApos
    have h2 : A < 0.00001 := by
      rw [hAval]
      nlinarith [Real.pi_lt_d2]
    linarith
  rw [fromAxisAndAngle_unit_axis 1 0 0 (1/1000) (by norm_num), QQuaternion.getAxisAndAngle]
  dsimp only
  rw [show (1 : ℝ) * Real.sin A * (1 * Real.sin A) + 0 * Real.sin A * (0 * Real.sin A)
      + 0 * Real.sin A * (0 * Real.sin A) = Real.sin A ^ 2 by ring,
    Real.sqrt_sq hsnn, if_neg (not_not_intro hsnull)]

lemma sqrt_two_half_mul_self : Real.sqrt 2 / 2 * (Real.sqrt 2 / 2) = 1/2 := by
  rw [div_mul_div_comm, Real.mul_self_sqrt (by norm_num : (0 : ℝ) ≤ 2)]
  norm_num

/-- fromEulerAngles at pitch 90, yaw 0, roll 0 produces the gimbal-pole
quaternion (sqrt 2 / 2, sqrt 2 / 2, 0, 0). -/
lemma fromEulerAngles_pole :
    QQuaternion.fromEulerAngles 90 0 0 = ⟨Real.sqrt 2 / 2, Real.sqrt 2 / 2, 0, 0⟩ := by
  rw [QQuaternion.fromEulerAngles]
  rw [show qDegreesToRadians 90 * 0.5 = Real.pi / 4 by rw [qDegreesToRadians]; ring,
    show qDegreesToRadians 0 * 0.5 = 0 by rw [qDegreesToRadians]; ring,
    Real.cos_pi_div_four, Real.sin_pi_div_four, Real.cos_zero, Real.sin_zero]
  ext <;> dsimp <;> ring

lemma length_pole :
    (QQuaternion.mk (Real.sqrt 2 / 2) (Real.sqrt 2 / 2) 0 0).length = 1 := by
  show Real.sqrt (Real.sqrt 2 / 2 * (Real.sqrt 2 / 2) + 0 * 0 + 0 * 0
    + Real.sqrt 2 / 2 * (Real.sqrt 2 / 2)) = 1
  rw [sqrt_two_half_mul_self]
  norm_num

lemma eulerRescale_pole (c : ℝ) :
    QQuaternion.eulerRescale ⟨Real.sqrt 2 / 2, Real.sqrt 2 / 2, 0, 0⟩ c = c := by
  rw [QQuaternion.eulerRescale, length_pole,
    if_neg (by norm_num [qFuzzyIsNull, abs, max_def] : ¬ qFuzzyIsNull (1 : ℝ)), div_one]

lemma eulerSinP_pole :
    QQuaternion.eulerSinP ⟨Real.sqrt 2 / 2, Real.sqrt 2 / 2, 0, 0⟩ = 1 := by
  rw [QQuaternion.eulerSinP]
  dsimp
  simp only [eulerRescale_pole]
  rw [sqrt_two_half_mul_self]
  norm_num

lemma sqrt_two_half_pos : (0 : ℝ) < Real.sqrt 2 / 2 := by
  have h2 : (1 : ℝ) ≤ Real.sqrt 2 := by
    rw [show (1 : ℝ) = Real.sqrt 1 by rw [Real.sqrt_one]]
    exact Real.sqrt_le_sqrt (by norm_num)
  linarith

/-- Claim C6: getEulerAngles detects the gimbal-lock region with the
threshold |sin(pitch)| >= 1 - 1e-5 on the rescaled components and there
reports roll = 0 exactly, pitch = +-90 and yaw from the two-argument
arctangent; in particular, on fromEulerAngles(pitch=90, yaw=0, roll=0)
the gimbal branch is taken and the result is exactly (90, 0, 0). -/
theorem getEulerAngles_gimbal_lock :
    (∀ q : QQuaternion, 1 - 0.00001 ≤ |QQuaternion.eulerSinP q| →
      (QQuaternion.getEulerAngles q).2.2 = 0 ∧
      ((QQuaternion.getEulerAngles q).1 = 90 ∨ (QQuaternion.getEulerAngles q).1 = -90) ∧
      (QQuaternion.getEulerAngles q).2.1
        = qRadiansToDegrees (2 * atan2 (QQuaternion.eulerRescale q q.yp)
            (QQuaternion.eulerRescale q q.wp))) ∧
    (1 - 0.00001 ≤ |QQuaternion.eulerSinP (QQuaternion.fromEulerAngles 90 0 0)| ∧
      QQuaternion.getEulerAngles (QQuaternion.fromEulerAngles 90 0 0) = (90, 0, 0)) := by
  constructor
  · intro q hg
    rw [QQuaternion.getEulerAngles, if_neg (not_lt.2 hg)]
    refine ⟨?_, ?_, rfl⟩
    · show qRadiansToDegrees 0 = 0
      rw [qRadiansToDegrees, zero_mul]
    · show qRadiansToDegrees (copysign (Real.pi / 2) (QQuaternion.eulerSinP q)) = 90 ∨
        qRadiansToDegrees (copysign (Real.pi / 2) (QQuaternion.eulerSinP q)) = -90
      rw [copysign]
      by_cases hneg : QQuaternion.eulerSinP q < 0
      · right
        rw [if_pos hneg, abs_of_pos (by positivity : (0 : ℝ) < Real.pi / 2),
          qRadiansToDegrees]
        field_simp
        ring
      · left
        rw [if_neg hneg, abs_of_pos (by positivity : (0 : ℝ) < Real.pi / 2),
          qRadiansToDegrees]
        field_simp
        ring
  · rw [fromEulerAngles_pole, eulerSinP_pole]
    refine ⟨by norm_num, ?_⟩
    rw [QQuaternion.getEulerAngles, eulerSinP_pole,
      if_neg (by norm_num : ¬ |(1 : ℝ)| < 1 - 0.00001)]
    dsimp
    simp only [eulerRescale_pole]
    rw [copysign, if_neg (by norm_num : ¬ (1 : ℝ) < 0),
      abs_of_pos (by positivity : (0 : ℝ) < Real.pi / 2),
      atan2, if_pos sqrt_two_half_pos, zero_div, Real.arctan_zero, mul_zero]
    have h90 : qRadiansToDegrees (Real.pi / 2) = 90 := by
      rw [qRadiansToDegrees]
      field_simp
      ring
    have h0 : qRadiansToDegrees 0 = 0 := by
      rw [qRadiansToDegrees, zero_mul]
    rw [h90, h0]
    norm_num [Prod.ext_iff]

/-- Claim C6 witness: the gimbal-lock branch theorem applied at the
pole quaternion produced by fromEulerAngles(90, 0, 0): roll is 0
exactly and pitch is one of +-90. -/
theorem getEulerAngles_gimbal_lock_witness :
    (QQuaternion.getEulerAngles (QQuaternion.fromEulerAngles 90 0 0)).2.2 = 0 ∧
    ((QQuaternion.getEulerAngles (QQuaternion.fromEulerAngles 90 0 0)).1 = 90 ∨
      (QQuaternion.getEulerAngles (QQuaternion.fromEulerAngles 90 0 0)).1 = -90) := by
  have h := getEulerAngles_gimbal_lock.1 (QQuaternion.fromEulerAngles 90 0 0)
    (by rw [fromEulerAngles_pole, eulerSinP_pole]; norm_num)
  exact ⟨h.1, h.2.1⟩

/-- A cross product is exactly perpendicular to its second factor. -/
lemma cross_dot_self (u v : QVector3D) :
    (QVector3D.crossProduct u v).x * v.x + (QVector3D.crossProduct u v).y * v.y
      + (QVector3D.crossProduct u v).z * v.z = 0 := by
  dsimp [QVector3D.crossProduct]
  ring

/-- The in-place normalize preserves exact perpendicularity. -/
lemma normalize_dot (w v : QVector3D)
    (h : w.x * v.x + w.y * v.y + w.z * v.z = 0) :
    (QVector3D.normalize w).x * v.x + (QVector3D.normalize w).y * v.y
      + (QVector3D.normalize w).z * v.z = 0 := by
  rw [QVector3D.normalize]
  split_ifs with hc
  · exact h
  · dsimp
    rw [div_mul_eq_mul_div, div_mul_eq_mul_div, div_mul_eq_mul_div,
      div_add_div_same, div_add_div_same, h, zero_div]

lemma vnormalized_xunit : QVector3D.normalized ⟨1, 0, 0⟩ = ⟨1, 0, 0⟩ := by
  have hl : QVector3D.length ⟨1, 0, 0⟩ = 1 := by
    show Real.sqrt (1 * 1 + 0 * 0 + 0 * 0) = 1
    norm_num
  rw [QVector3D.normalized, hl, if_pos (by norm_num [qFuzzyIsNull])]

lemma vnormalized_negxunit : QVector3D.normalized ⟨-1, 0, 0⟩ = ⟨-1, 0, 0⟩ := by
  have hl : QVector3D.length ⟨-1, 0, 0⟩ = 1 := by
    show Real.sqrt (-1 * -1 + 0 * 0 + 0 * 0) = 1
    norm_num
  rw [QVector3D.normalized, hl, if_pos (by norm_num [qFuzzyIsNull])]

/-- The antiparallel pair (1,0,0), (-1,0,0) drives d = dot + 1 to
exactly 0, which is fuzzily null. -/
lemma dot_antiparallel_null :
    qFuzzyIsNull (QVector3D.dotProduct (QVector3D.normalized ⟨1, 0, 0⟩)
      (QVector3D.normalized ⟨-1, 0, 0⟩) + 1) := by
  rw [vnormalized_xunit, vnormalized_negxunit,
    show QVector3D.dotProduct ⟨1, 0, 0⟩ ⟨-1, 0, 0⟩ = -1 from by
      show (1 : ℝ) * -1 + 0 * 0 + 0 * 0 = -1
      norm_num]
  norm_num [qFuzzyIsNull]

lemma vec_sum_sq_nonneg (w : QVector3D) :
    0 ≤ w.x * w.x + w.y * w.y + w.z * w.z :=
  add_nonneg (add_nonneg (mul_self_nonneg _) (mul_self_nonneg _)) (mul_self_nonneg _)

/-- A square root that is fuzzily null has a radicand of at most 1e-10. -/
lemma sq_le_of_sqrt_fuzzyNull {A : ℝ} (hA : 0 ≤ A)
    (h : qFuzzyIsNull (Real.sqrt A)) : A ≤ 0.0000000001 := by
  rw [qFuzzyIsNull, abs_of_nonneg (Real.sqrt_nonneg A)] at h
  nlinarith [Real.sq_sqrt hA, Real.sqrt_nonneg A]

/-- If a vector's length is fuzzily null so is its squared length. -/
lemma fuzzyNull_lengthSquared_of_fuzzyNull_length (w : QVector3D)
    (h : qFuzzyIsNull w.length) : qFuzzyIsNull w.lengthSquared := by
  have hnn := vec_sum_sq_nonneg w
  have h2 : qFuzzyIsNull (Real.sqrt (w.x * w.x + w.y * w.y + w.z * w.z)) := h
  have hle := sq_le_of_sqrt_fuzzyNull hnn h2
  rw [QVector3D.lengthSquared, qFuzzyIsNull, abs_of_nonneg hnn]
  linarith

/-- The in-place normalize yields a vector whose length is exactly 1,
or it is a no-op: then the length either stays within the absolute
1e-5 band around 1 or was fuzzily null to begin with. -/
lemma normalize_length (w : QVector3D) :
    (QVector3D.normalize w).length = 1 ∨
    qFuzzyIsNull ((QVector3D.normalize w).length - 1) ∨
    qFuzzyIsNull w.length := by
  rw [QVector3D.normalize]
  split_ifs with hc
  · rcases hc with h1 | h0
    · exact Or.inr (Or.inl h1)
    · exact Or.inr (Or.inr h0)
  · push_neg at hc
    obtain ⟨h1, h0⟩ := hc
    left
    have hnn := vec_sum_sq_nonneg w
    have hS : w.length * w.length = w.x * w.x + w.y * w.y + w.z * w.z :=
      Real.mul_self_sqrt hnn
    have hne : w.length ≠ 0 := by
      intro h0x
      exact h0 (by rw [qFuzzyIsNull, h0x]; norm_num)
    show Real.sqrt (w.x / w.length * (w.x / w.length)
      + w.y / w.length * (w.y / w.length) + w.z / w.length * (w.z / w.length)) = 1
    rw [show w.x / w.length * (w.x / w.length) + w.y / w.length * (w.y / w.length)
        + w.z / w.length * (w.z / w.length) = 1 by field_simp; linarith [hS],
      Real.sqrt_one]

/-- The spec-modelled normalized vector never has length above
1 + 1e-5: it is exact, or within the fuzzy band of 1, or zero. -/
lemma vnormalized_length_le (v : QVector3D) :
    (QVector3D.normalized v).length ≤ 1.00001 := by
  rw [QVector3D.normalized]
  split_ifs with h1 h2
  · rw [qFuzzyIsNull] at h1
    have hb := (abs_le.mp h1).2
    show QVector3D.length v ≤ 1.00001
    linarith
  · show Real.sqrt (0 * 0 + 0 * 0 + 0 * 0) ≤ 1.00001
    norm_num
  · have hnn := vec_sum_sq_nonneg v
    have hS : v.length * v.length = v.x * v.x + v.y * v.y + v.z * v.z :=
      Real.mul_self_sqrt hnn
    have hne : v.length ≠ 0 := by
      intro h0x
      exact h2 (by rw [qFuzzyIsNull, h0x]; norm_num)
    show Real.sqrt (v.x / v.length * (v.x / v.length)
      + v.y / v.length * (v.y / v.length) + v.z / v.length * (v.z / v.length)) ≤ 1.00001
    rw [show v.x / v.length * (v.x / v.length) + v.y / v.length * (v.y / v.length)
        + v.z / v.length * (v.z / v.length) = 1 by field_simp; linarith [hS],
      Real.sqrt_one]
    norm_num

/-- The Cauchy-Schwarz inequality for 3D dot products, in the
polynomial form used to exclude the degenerate fallback case. -/
lemma dot_sq_le (a b c x y z : ℝ) :
    (a * x + b * y + c * z) * (a * x + b * y + c * z)
      ≤ (a * a + b * b + c * c) * (x * x + y * y + z * z) := by
  nlinarith [sq_nonneg (a * y - b * x), sq_nonneg (a * z - c * x), sq_nonneg (b * z - c * y)]

/-- Claim C7 (amended): when d = dot(from,to) + 1 over the normalized
inputs is fuzzily zero, rotationTo returns a quaternion with zero
scalar whose vector part is exactly perpendicular to the source
direction (it is a cross of the X axis -- or of the Y axis as
fallback -- with the source, passed through the in-place normalize),
and the vector part's length is exactly 1 unless the selected cross
already had length inside the absolute 1e-5 band around 1, where the
no-op normalize keeps that near-unit length; concretely,
rotationTo((1,0,0), (-1,0,0)) falls back to the Y-axis cross and
returns (0, 0, 0, -1), a 180-degree rotation whose exactly-unit
vector part is perpendicular to (1,0,0). -/
theorem rotationTo_antiparallel_amended :
    (∀ fromV toV : QVector3D,
      qFuzzyIsNull (QVector3D.dotProduct fromV.normalized toV.normalized + 1) →
      (QQuaternion.rotationTo fromV toV).wp = 0 ∧
      ((QQuaternion.rotationTo fromV toV).xp * fromV.normalized.x
        + (QQuaternion.rotationTo fromV toV).yp * fromV.normalized.y
        + (QQuaternion.rotationTo fromV toV).zp * fromV.normalized.z = 0) ∧
      (Real.sqrt ((QQuaternion.rotationTo fromV toV).xp * (QQuaternion.rotationTo fromV toV).xp
          + (QQuaternion.rotationTo fromV toV).yp * (QQuaternion.rotationTo fromV toV).yp
          + (QQuaternion.rotationTo fromV toV).zp * (QQuaternion.rotationTo fromV toV).zp) = 1 ∨
        qFuzzyIsNull
          (Real.sqrt ((QQuaternion.rotationTo fromV toV).xp * (QQuaternion.rotationTo fromV toV).xp
            + (QQuaternion.rotationTo fromV toV).yp * (QQuaternion.rotationTo fromV toV).yp
            + (QQuaternion.rotationTo fromV toV).zp * (QQuaternion.rotationTo fromV toV).zp)
           - 1))) ∧
    (QQuaternion.rotationTo ⟨1, 0, 0⟩ ⟨-1, 0, 0⟩ = ⟨0, 0, 0, -1⟩ ∧
      (QQuaternion.rotationTo ⟨1, 0, 0⟩ ⟨-1, 0, 0⟩).xp * 1
        + (QQuaternion.rotationTo ⟨1, 0, 0⟩ ⟨-1, 0, 0⟩).yp * 0
        + (QQuaternion.rotationTo ⟨1, 0, 0⟩ ⟨-1, 0, 0⟩).zp * 0 = 0 ∧
      (QQuaternion.rotationTo ⟨1, 0, 0⟩ ⟨-1, 0, 0⟩).xp
          * (QQuaternion.rotationTo ⟨1, 0, 0⟩ ⟨-1, 0, 0⟩).xp
        + (QQuaternion.rotationTo ⟨1, 0, 0⟩ ⟨-1, 0, 0⟩).yp
          * (QQuaternion.rotationTo ⟨1, 0, 0⟩ ⟨-1, 0, 0⟩).yp
        + (QQuaternion.rotationTo ⟨1, 0, 0⟩ ⟨-1, 0, 0⟩).zp
          * (QQuaternion.rotationTo ⟨1, 0, 0⟩ ⟨-1, 0, 0⟩).zp = 1) := by
  constructor
  · intro f t hd
    rw [QQuaternion.rotationTo]
    dsimp only
    rw [if_pos hd]
    refine ⟨rfl, ?_, ?_⟩
    · dsimp
      by_cases hax : qFuzzyIsNull
          (QVector3D.crossProduct ⟨1, 0, 0⟩ f.normalized).lengthSquared
      · rw [if_pos hax]
        exact normalize_dot _ _ (cross_dot_self _ _)
      · rw [if_neg hax]
        exact normalize_dot _ _ (cross_dot_self _ _)
    · dsimp
      by_cases hax : qFuzzyIsNull
          (QVector3D.crossProduct ⟨1, 0, 0⟩ f.normalized).lengthSquared
      · rw [if_pos hax]
        show QVector3D.length
            (QVector3D.normalize (QVector3D.crossProduct ⟨0, 1, 0⟩ f.normalized)) = 1 ∨
          qFuzzyIsNull (QVector3D.length
            (QVector3D.normalize (QVector3D.crossProduct ⟨0, 1, 0⟩ f.normalized)) - 1)
        rcases normalize_length (QVector3D.crossProduct ⟨0, 1, 0⟩ f.normalized)
          with h | h | h
        · exact Or.inl h
        · exact Or.inr h
        · exfalso
          have hu := vec_sum_sq_nonneg f.normalized
          have hv := vec_sum_sq_nonneg t.normalized
          have hax2 : f.normalized.y * f.normalized.y
              + f.normalized.z * f.normalized.z ≤ 0.00001 := by
            rw [qFuzzyIsNull] at hax
            have hb := (abs_le.mp hax).2
            dsimp [QVector3D.crossProduct, QVector3D.lengthSquared] at hb
            nlinarith [hb]
          have hls1 : f.normalized.z * f.normalized.z
              + f.normalized.x * f.normalized.x ≤ 0.0000000001 := by
            have h2 : qFuzzyIsNull (Real.sqrt
                ((QVector3D.crossProduct ⟨0, 1, 0⟩ f.normalized).x
                  * (QVector3D.crossProduct ⟨0, 1, 0⟩ f.normalized).x
                + (QVector3D.crossProduct ⟨0, 1, 0⟩ f.normalized).y
                  * (QVector3D.crossProduct ⟨0, 1, 0⟩ f.normalized).y
                + (QVector3D.crossProduct ⟨0, 1, 0⟩ f.normalized).z
                  * (QVector3D.crossProduct ⟨0, 1, 0⟩ f.normalized).z)) := h
            have hle := sq_le_of_sqrt_fuzzyNull (vec_sum_sq_nonneg _) h2
            dsimp [QVector3D.crossProduct] at hle
            nlinarith [hle]
          have hdc : f.normalized.x * t.normalized.x + f.normalized.y * t.normalized.y
              + f.normalized.z * t.normalized.z + 1 ≤ 0.00001 := by
            have hdd := hd
            rw [qFuzzyIsNull, QVector3D.dotProduct] at hdd
            exact (abs_le.mp hdd).2
          have hSv : t.normalized.x * t.normalized.x + t.normalized.y * t.normalized.y
              + t.normalized.z * t.normalized.z ≤ 1.00003 := by
            have hlen : Real.sqrt (t.normalized.x * t.normalized.x
                + t.normalized.y * t.normalized.y
                + t.normalized.z * t.normalized.z) ≤ 1.00001 := vnormalized_length_le t
            nlinarith [Real.mul_self_sqrt hv, hlen, Real.sqrt_nonneg
              (t.normalized.x * t.normalized.x + t.normalized.y * t.normalized.y
                + t.normalized.z * t.normalized.z)]
          have hSu : f.normalized.x * f.normalized.x + f.normalized.y * f.normalized.y
              + f.normalized.z * f.normalized.z ≤ 0.0000100001 := by
            nlinarith [hax2, hls1, mul_self_nonneg f.normalized.z]
          have hprod : (f.normalized.x * f.normalized.x + f.normalized.y * f.normalized.y
                + f.normalized.z * f.normalized.z)
              * (t.normalized.x * t.normalized.x + t.normalized.y * t.normalized.y
                + t.normalized.z * t.normalized.z) ≤ 0.0000100001 * 1.00003 :=
            mul_le_mul hSu hSv hv (by norm_num)
          have hcs := dot_sq_le f.normalized.x f.normalized.y f.normalized.z
            t.normalized.x t.normalized.y t.normalized.z
          nlinarith [hcs, hprod, hdc, mul_self_nonneg
            (f.normalized.x * t.normalized.x + f.normalized.y * t.normalized.y
              + f.normalized.z * t.normalized.z + 1)]
      · rw [if_neg hax]
        show QVector3D.length
            (QVector3D.normalize (QVector3D.crossProduct ⟨1, 0, 0⟩ f.normalized)) = 1 ∨
          qFuzzyIsNull (QVector3D.length
            (QVector3D.normalize (QVector3D.crossProduct ⟨1, 0, 0⟩ f.normalized)) - 1)
        rcases normalize_length (QVector3D.crossProduct ⟨1, 0, 0⟩ f.normalized)
          with h | h | h
        · exact Or.inl h
        · exact Or.inr h
        · exact absurd (fuzzyNull_lengthSquared_of_fuzzyNull_length _ h) hax
  · have hcross1 : QVector3D.crossProduct ⟨1, 0, 0⟩ ⟨1, 0, 0⟩ = ⟨0, 0, 0⟩ := by
      ext <;> dsimp [QVector3D.crossProduct] <;> ring
    have hcross2 : QVector3D.crossProduct ⟨0, 1, 0⟩ ⟨1, 0, 0⟩ = ⟨0, 0, -1⟩ := by
      ext <;> dsimp [QVector3D.crossProduct] <;> ring
    have hls0 : QVector3D.lengthSquared ⟨0, 0, 0⟩ = 0 := by
      show (0 : ℝ) * 0 + 0 * 0 + 0 * 0 = 0
      norm_num
    have hnormz : QVector3D.normalize ⟨0, 0, -1⟩ = ⟨0, 0, -1⟩ := by
      have hl : QVector3D.length ⟨0, 0, -1⟩ = 1 := by
        show Real.sqrt (0 * 0 + 0 * 0 + -1 * -1) = 1
        norm_num
      rw [QVector3D.normalize, hl, if_pos (Or.inl (by norm_num [qFuzzyIsNull]))]
    have heval : QQuaternion.rotationTo ⟨1, 0, 0⟩ ⟨-1, 0, 0⟩ = ⟨0, 0, 0, -1⟩ := by
      rw [QQuaternion.rotationTo]
      dsimp only
      rw [if_pos dot_antiparallel_null, vnormalized_xunit, hcross1, hls0,
        if_pos qFuzzyIsNull_zero, hcross2, hnormz]
    refine ⟨heval, ?_, ?_⟩ <;> rw [heval] <;> dsimp <;> norm_num

/-- Claim C7 witness: the antiparallel branch theorem applied at the
concrete pair (1,0,0), (-1,0,0): the scalar part is 0 and the vector
part is perpendicular to the normalized source direction. -/
theorem rotationTo_antiparallel_witness :
    (QQuaternion.rotationTo ⟨1, 0, 0⟩ ⟨-1, 0, 0⟩).wp = 0 ∧
    (QQuaternion.rotationTo ⟨1, 0, 0⟩ ⟨-1, 0, 0⟩).xp
        * (QVector3D.normalized ⟨1, 0, 0⟩).x
      + (QQuaternion.rotationTo ⟨1, 0, 0⟩ ⟨-1, 0, 0⟩).yp
        * (QVector3D.normalized ⟨1, 0, 0⟩).y
      + (QQuaternion.rotationTo ⟨1, 0, 0⟩ ⟨-1, 0, 0⟩).zp
        * (QVector3D.normalized ⟨1, 0, 0⟩).z = 0 := by
  have h := rotationTo_antiparallel_amended.1 ⟨1, 0, 0⟩ ⟨-1, 0, 0⟩ dot_antiparallel_null
  exact ⟨h.1, h.2.1⟩

/-- Claim C7 counterexample: the unit direction
(896/200705, 200703/200705, 0) and its negation are antiparallel
(d is exactly 0), yet the cross with the X axis is
(0, 0, 200703/200705), whose length 200703/200705 lies inside the
absolute 1e-5 band around 1, so the in-place normalize is a no-op and
the returned quaternion (0, 0, 0, 200703/200705) does not have a unit
vector part: the claim's unqualified "unit vector part" is false. -/
theorem rotationTo_vector_part_not_unit_counterexample :
    qFuzzyIsNull (QVector3D.dotProduct
        (QVector3D.normalized ⟨896/200705, 200703/200705, 0⟩)
        (QVector3D.normalized ⟨-(896/200705), -(200703/200705), 0⟩) + 1) ∧
    QQuaternion.rotationTo ⟨896/200705, 200703/200705, 0⟩
        ⟨-(896/200705), -(200703/200705), 0⟩ = ⟨0, 0, 0, 200703/200705⟩ ∧
    (QQuaternion.rotationTo ⟨896/200705, 200703/200705, 0⟩
          ⟨-(896/200705), -(200703/200705), 0⟩).xp
        * (QQuaternion.rotationTo ⟨896/200705, 200703/200705, 0⟩
          ⟨-(896/200705), -(200703/200705), 0⟩).xp
      + (QQuaternion.rotationTo ⟨896/200705, 200703/200705, 0⟩
          ⟨-(896/200705), -(200703/200705), 0⟩).yp
        * (QQuaternion.rotationTo ⟨896/200705, 200703/200705, 0⟩
          ⟨-(896/200705), -(200703/200705), 0⟩).yp
      + (QQuaternion.rotationTo ⟨896/200705, 200703/200705, 0⟩
          ⟨-(896/200705), -(200703/200705), 0⟩).zp
        * (QQuaternion.rotationTo ⟨896/200705, 200703/200705, 0⟩
          ⟨-(896/200705), -(200703/200705), 0⟩).zp ≠ 1 := by
  have hlF : QVector3D.length ⟨896/200705, 200703/200705, 0⟩ = 1 := by
    show Real.sqrt (896/200705 * (896/200705)
      + 200703/200705 * (200703/200705) + 0 * 0) = 1
    rw [show (896/200705 : ℝ) * (896/200705)
        + 200703/200705 * (200703/200705) + 0 * 0 = 1 by norm_num]
    exact Real.sqrt_one
  have hnF : QVector3D.normalized ⟨896/200705, 200703/200705, 0⟩
      = ⟨896/200705, 200703/200705, 0⟩ := by
    rw [QVector3D.normalized, hlF, if_pos (by norm_num [qFuzzyIsNull])]
  have hlT : QVector3D.length ⟨-(896/200705), -(200703/200705), 0⟩ = 1 := by
    show Real.sqrt (-(896/200705) * -(896/200705)
      + -(200703/200705) * -(200703/200705) + 0 * 0) = 1
    rw [show (-(896/200705) : ℝ) * -(896/200705)
        + -(200703/200705) * -(200703/200705) + 0 * 0 = 1 by norm_num]
    exact Real.sqrt_one
  have hnT : QVector3D.normalized ⟨-(896/200705), -(200703/200705), 0⟩
      = ⟨-(896/200705), -(200703/200705), 0⟩ := by
    rw [QVector3D.normalized, hlT, if_pos (by norm_num [qFuzzyIsNull])]
  have hdot : QVector3D.dotProduct ⟨896/200705, 200703/200705, 0⟩
      ⟨-(896/200705), -(200703/200705), 0⟩ = -1 := by
    show (896/200705 : ℝ) * -(896/200705)
      + 200703/200705 * -(200703/200705) + 0 * 0 = -1
    norm_num
  have hd : qFuzzyIsNull (QVector3D.dotProduct
      (QVector3D.normalized ⟨896/200705, 200703/200705, 0⟩)
      (QVector3D.normalized ⟨-(896/200705), -(200703/200705), 0⟩) + 1) := by
    rw [hnF, hnT, hdot]
    norm_num [qFuzzyIsNull]
  have hcx : QVector3D.crossProduct ⟨1, 0, 0⟩ ⟨896/200705, 200703/200705, 0⟩
      = ⟨0, 0, 200703/200705⟩ := by
    ext <;> dsimp [QVector3D.crossProduct] <;> norm_num
  have hlsx : ¬ qFuzzyIsNull (QVector3D.lengthSquared ⟨0, 0, 200703/200705⟩) := by
    rw [show QVector3D.lengthSquared ⟨0, 0, (200703/200705 : ℝ)⟩
        = 0 * 0 + 0 * 0 + 200703/200705 * (200703/200705) from rfl]
    norm_num [qFuzzyIsNull, abs, max_def]
  have hnormx : QVector3D.normalize ⟨0, 0, 200703/200705⟩
      = ⟨0, 0, 200703/200705⟩ := by
    have hl : QVector3D.length ⟨0, 0, (200703/200705 : ℝ)⟩ = 200703/200705 := by
      show Real.sqrt (0 * 0 + 0 * 0 + 200703/200705 * (200703/200705)) = 200703/200705
      rw [show (0 : ℝ) * 0 + 0 * 0 + 200703/200705 * (200703/200705)
          = ((200703 : ℝ)/200705) ^ 2 by norm_num,
        Real.sqrt_sq (by norm_num : (0 : ℝ) ≤ 200703/200705)]
    rw [QVector3D.normalize, hl,
      if_pos (Or.inl (by norm_num [qFuzzyIsNull, abs, max_def]))]
  have heval : QQuaternion.rotationTo ⟨896/200705, 200703/200705, 0⟩
      ⟨-(896/200705), -(200703/200705), 0⟩ = ⟨0, 0, 0, 200703/200705⟩ := by
    rw [QQuaternion.rotationTo]
    dsimp only
    rw [if_pos hd, hnF, hcx, if_neg hlsx, hnormx]
  refine ⟨hd, heval, ?_⟩
  rw [heval]
  dsimp
  norm_num

/-- Claim C9: the stream write operator emits the four components in
the fixed order scalar, x, y, z, the read operator consumes them in
the same order, and writing then reading yields a componentwise
identical quaternion. -/
theorem stream_roundtrip_order :
    ∀ (q : QQuaternion) (rest : List ℝ),
      writeQuaternion [] q = [q.wp, q.xp, q.yp, q.zp] ∧
      readQuaternion (writeQuaternion [] q ++ rest) = some (q, rest) := by
  intro q rest
  exact ⟨rfl, rfl⟩

/-- Claim C10: fromDirection returns the identity quaternion whenever
each component of the direction is individually fuzzily zero; the test
is a componentwise tolerance check, so the non-zero direction
(0.00001, 0, 0) also maps to the identity quaternion. -/
theorem fromDirection_fuzzyZero_identity :
    (∀ direction up : QVector3D,
      qFuzzyIsNull direction.x → qFuzzyIsNull direction.y → qFuzzyIsNull direction.z →
        QQuaternion.fromDirection direction up = ⟨1, 0, 0, 0⟩) ∧
    ((⟨1/100000, 0, 0⟩ : QVector3D) ≠ (⟨0, 0, 0⟩ : QVector3D) ∧
      QQuaternion.fromDirection ⟨1/100000, 0, 0⟩ ⟨0, 1, 0⟩ = ⟨1, 0, 0, 0⟩) := by
  have hgen : ∀ direction up : QVector3D,
      qFuzzyIsNull direction.x → qFuzzyIsNull direction.y → qFuzzyIsNull direction.z →
        QQuaternion.fromDirection direction up = ⟨1, 0, 0, 0⟩ := by
    intro d u h1 h2 h3
    rw [QQuaternion.fromDirection, if_pos ⟨h1, h2, h3⟩]
  refine ⟨hgen, ?_, ?_⟩
  · intro h
    have := congrArg QVector3D.x h
    norm_num at this
  · exact hgen _ _ (by norm_num [qFuzzyIsNull, abs, max_def])
      (by norm_num [qFuzzyIsNull, abs, max_def])
      (by norm_num [qFuzzyIsNull, abs, max_def])

/-- Claim C10 witness: the exact zero direction satisfies the
componentwise fuzzy-zero test and maps to the identity quaternion. -/
theorem fromDirection_fuzzyZero_identity_witness :
    QQuaternion.fromDirection ⟨0, 0, 0⟩ ⟨0, 1, 0⟩ = ⟨1, 0, 0, 0⟩ :=
  fromDirection_fuzzyZero_identity.1 ⟨0, 0, 0⟩ ⟨0, 1, 0⟩
    (by norm_num [qFuzzyIsNull, abs, max_def])
    (by norm_num [qFuzzyIsNull, abs, max_def])
    (by norm_num [qFuzzyIsNull, abs, max_def])

end QtMath
